import Mathlib

/-!
Verification development for the neoscore/brown document layout engine.

This file shallowly embeds the flowable-layout and rendering core:
geometric points are pairs of rationals (the Python floats carry exact
values in all layout arithmetic of interest), the break-controller list
of a flowable frame, the local-space to document-space mapping, the
flowable render protocol of `GraphicObject._render_flowable`
(src/brown/core/graphic_object.py), the spanner length computation
(src/brown/core/spanner.py), the page supplier, the Qt clipping-path
bounding-rect computation
(src/neoscore/interface/qt/q_clipping_path.py), and the repeating
music-text repetition count
(src/brown/core/repeating_music_text_line.py).

The source tree does not contain `flowable_frame.py`, `document.py`,
the `GraphicObject.map_between_items` helper, or the unit classes; the
definitions standing in for those carry doc comments beginning with
"Modelled from the spec:" and follow the specification text (and the
behaviour pinned down by the in-tree tests and callers).
-/

/-- A 2D point with rational coordinates, standing in for
`brown.utils.point.Point`. -/
structure Pt where
  x : ℚ
  y : ℚ
  deriving DecidableEq, Repr

instance : Add Pt := ⟨fun a b => ⟨a.x + b.x, a.y + b.y⟩⟩

instance : Sub Pt := ⟨fun a b => ⟨a.x - b.x, a.y - b.y⟩⟩

instance : Zero Pt := ⟨⟨0, 0⟩⟩

/-- Paper geometry: overall width, the margins that define the live
area, the live-area dimensions, and the fixed inter-page display gap
(`config.PAGE_DISPLAY_GAP`). The spec treats this as a plain value
struct supplied by an external provider. -/
structure Paper where
  width : ℚ
  marginLeft : ℚ
  marginTop : ℚ
  liveWidth : ℚ
  liveHeight : ℚ
  gap : ℚ
  deriving DecidableEq, Repr

/-- Modelled from the spec: `page_origin_in_doc_space` of the missing
Document / Page Supplier component. The x origin of page `i` is a pure
function of the page index, the paper width and the fixed inter-page
gap; pages are laid out in a single row. -/
def Paper.pageOriginX (pp : Paper) (i : ℕ) : ℚ :=
  i * (pp.width + pp.gap) + pp.marginLeft

/-- Modelled from the spec: the y origin of every page is the top
margin offset (pages form one row, so it does not depend on the
index). -/
def Paper.pageOriginY (pp : Paper) : ℚ :=
  pp.marginTop

/-- Modelled from the spec: `page_at` of the missing Document / Page
Supplier component. The state is the list of page indices in creation
order; requesting an index beyond the existing pages creates every
missing page from the lowest absent index upward, in ascending
order. -/
def pageAt (pages : List ℕ) (i : ℕ) : List ℕ × ℕ :=
  if i < pages.length then (pages, i)
  else (pages ++ List.range' pages.length (i + 1 - pages.length), i)

/-- A break controller (`AutoNewLine` / `AutoNewPage`): the local x
trigger position, the length of the line segment it starts, and the
vertical margin applied before the next line. -/
structure AutoLayoutController where
  isNewPage : Bool
  x : ℚ
  length : ℚ
  marginAboveNext : ℚ
  deriving DecidableEq, Repr

/-- The flowable frame parameters: origin offset within the first
line/page, total logical length (`width`), line height (`height`),
vertical padding between lines, and the paper geometry of the pages it
occupies. -/
structure FlowableFrame where
  x : ℚ
  y : ℚ
  width : ℚ
  height : ℚ
  yPadding : ℚ
  paper : Paper
  deriving DecidableEq, Repr

/-- Modelled from the spec: the first line is shorter by the frame's
starting x offset within the live area. -/
def FlowableFrame.firstLineWidth (f : FlowableFrame) : ℚ :=
  f.paper.liveWidth - f.x

/-- Modelled from the spec: floor(live height / (line height + padding))
lines fit on one page before a page break is required. -/
def FlowableFrame.linesPerPage (f : FlowableFrame) : ℕ :=
  (Int.floor (f.paper.liveHeight / (f.height + f.yPadding))).toNat

/-- Modelled from the spec: the number of break controllers the layout
loop emits. The loop walks x positions `firstLineWidth`,
`firstLineWidth + liveWidth`, ... while strictly below the frame
length, so the count is the (clamped) ceiling of
`(width - firstLineWidth) / liveWidth`. -/
def FlowableFrame.controllerCount (f : FlowableFrame) : ℕ :=
  (Int.ceil ((f.width - f.firstLineWidth) / f.paper.liveWidth)).toNat

/-- Modelled from the spec: the local x position at which the k-th
break controller triggers. -/
def FlowableFrame.trigger (f : FlowableFrame) (k : ℕ) : ℚ :=
  f.firstLineWidth + k * f.paper.liveWidth

/-- Modelled from the spec: the k-th break is a page break when the
current page's budget of lines is exhausted (every break is a page
break when not even one line fits). -/
def FlowableFrame.isNewPageAt (f : FlowableFrame) (k : ℕ) : Bool :=
  f.linesPerPage == 0 || (k + 1) % f.linesPerPage == 0

/-- Modelled from the spec: the k-th break controller. It stores the
cumulative x where it triggers and the length of the line segment that
follows it (the full live width, truncated when the remaining content
is shorter than one line); line breaks carry the configured padding as
the margin above the next line, page breaks carry zero. -/
def FlowableFrame.mkController (f : FlowableFrame) (k : ℕ) : AutoLayoutController :=
  { isNewPage := f.isNewPageAt k
    x := f.trigger k
    length := min f.paper.liveWidth (f.width - f.trigger k)
    marginAboveNext := if f.isNewPageAt k then 0 else f.yPadding }

/-- Modelled from the spec: the ordered break-controller list computed
by `FlowableFrame._generate_auto_layout_controllers` (the source file
is absent; the in-tree tests in tests/core/test_flowable_frame.py pin
down the trigger positions). -/
def FlowableFrame.autoLayoutControllers (f : FlowableFrame) : List AutoLayoutController :=
  (List.range f.controllerCount).map f.mkController

/-- Slicing the interval [0, L) at an ordered list of trigger
positions: the lengths of the consecutive segments. -/
def sliceSegments (L : ℚ) (ts : List ℚ) : List ℚ :=
  List.zipWith (fun u v => u - v) (ts ++ [L]) (0 :: ts)

/-- Modelled from the spec: the number of break controllers whose
trigger position is at or before the local x (a linear scan over the
ordered controller list). The greatest controller index with trigger
at or before x is this count minus one. -/
def FlowableFrame.countBreaksLE (f : FlowableFrame) (x : ℚ) : ℕ :=
  f.autoLayoutControllers.countP (fun c => c.x ≤ x)

/-- Modelled from the spec: `FlowableFrame._last_break_index_at` — the
index of the break controller whose trigger position is the greatest
one at or before x, or -1 when x lies on the first line. -/
def FlowableFrame.lastBreakIndexAt (f : FlowableFrame) (x : ℚ) : ℤ :=
  (f.countBreaksLE x : ℤ) - 1

/-- Modelled from the spec: the controller that starts the line
containing local x (`none` when x is on the first line). -/
def FlowableFrame.lineStartCtrl (f : FlowableFrame) (x : ℚ) : Option AutoLayoutController :=
  if f.countBreaksLE x = 0 then none
  else f.autoLayoutControllers[f.countBreaksLE x - 1]?

/-- Modelled from the spec: the trigger position of the line's starting
break, or 0 for the first line. -/
def FlowableFrame.lineStartX (f : FlowableFrame) (x : ℚ) : ℚ :=
  match f.lineStartCtrl x with
  | none => 0
  | some c => c.x

/-- Modelled from the spec: the stored length of the line containing
local x (the first line's width for the first line). -/
def FlowableFrame.lineLength (f : FlowableFrame) (x : ℚ) : ℚ :=
  match f.lineStartCtrl x with
  | none => f.firstLineWidth
  | some c => c.length

/-- Modelled from the spec: `FlowableFrame._x_pos_rel_to_line_end` —
the signed displacement from local x to the end of its line. Section
4.2 of the spec adds this to the breakable width and treats a negative
sum as "fits within the current line", and
`GraphicObject._render_flowable` negates it to obtain the width of the
before-break slice, so within a line the value is negative. -/
def FlowableFrame.xPosRelToLineEnd (f : FlowableFrame) (x : ℚ) : ℚ :=
  x - (f.lineStartX x + f.lineLength x)

/-- Modelled from the spec: the page a line lives on is derived by
counting how many NewPage controllers precede it (`c` is the 0-based
line index). -/
def FlowableFrame.pagesBefore (f : FlowableFrame) (c : ℕ) : ℕ :=
  ((f.autoLayoutControllers.take c).filter (fun ctl => ctl.isNewPage)).length

/-- Modelled from the spec: the vertical line index within its page —
the run of non-page-break controllers immediately preceding line `c`. -/
def FlowableFrame.lineOnPage (f : FlowableFrame) (c : ℕ) : ℕ :=
  ((f.autoLayoutControllers.take c).reverse.takeWhile (fun ctl => !ctl.isNewPage)).length

/-- Modelled from the spec: `FlowableFrame._local_space_to_doc_space`.
The document position is the page origin plus the horizontal offset
within the line and the vertical line index times (line height +
padding); the frame's own x/y offsets apply on its first line and
first page respectively (as pinned down by the in-tree tests). -/
def FlowableFrame.localSpaceToDocSpace (f : FlowableFrame) (p : Pt) : Pt :=
  let c := f.countBreaksLE p.x
  let pg := f.pagesBefore c
  ⟨f.paper.pageOriginX pg + (if c = 0 then f.x else 0) + (p.x - f.lineStartX p.x),
   f.paper.pageOriginY + (if pg = 0 then f.y else 0)
     + (f.lineOnPage c : ℚ) * (f.height + f.yPadding) + p.y⟩

/-- Python list indexing: a nonnegative index reads from the front, a
negative index -k reads element `length - k`, and anything out of
range is an IndexError (`none`). -/
def pyGet {α : Type} (l : List α) (i : ℤ) : Option α :=
  if 0 ≤ i then l[i.toNat]?
  else if (-i).toNat ≤ l.length then l[l.length - (-i).toNat]?
  else none

/-- One dispatched render call of the flowable render protocol. -/
inductive RenderEvent where
  | complete (pos : Pt)
  | beforeBreak (start stop : Pt)
  | afterBreak (start stop : Pt)
  | spanningContinuation (start stop : Pt)
  deriving DecidableEq, Repr

/-- The loop of `GraphicObject._render_flowable`
(src/brown/core/graphic_object.py, lines 208-219): walk the
controllers after the first line; while the remaining breakable width
exceeds a line's length, emit a spanning continuation over that whole
line and decrement; stop at the first line that can absorb the rest.
Returns the emitted events, the controller Python's `current_line`
variable holds after the loop, and the remaining width. -/
def spanLoop (f : FlowableFrame) (y : ℚ) :
    List AutoLayoutController → ℚ → AutoLayoutController →
    List RenderEvent × AutoLayoutController × ℚ
  | [], rem, cur => ([], cur, rem)
  | c :: rest, rem, _cur =>
    if rem > c.length then
      let s := f.localSpaceToDocSpace ⟨c.x, y⟩
      let tail := spanLoop f y rest (rem - c.length) c
      (RenderEvent.spanningContinuation s (s + ⟨c.length, 0⟩) :: tail.1, tail.2)
    else ([], c, rem)

/-- Embedding of `GraphicObject._render_flowable`
(src/brown/core/graphic_object.py, lines 189-225): if the breakable
width plus the displacement to the line end is negative, render
complete at the mapped document position; otherwise render a
before-break slice up to the line end, spanning continuations over
fully covered lines, and an after-break slice with the remaining
width. `none` models the IndexError Python raises at line 203 when the
controller list is empty. -/
def FlowableFrame.renderFlowable (f : FlowableFrame) (pos : Pt) (breakableWidth : ℚ) :
    Option (List RenderEvent) :=
  let remainingX := breakableWidth + f.xPosRelToLineEnd pos.x
  if remainingX < 0 then
    some [RenderEvent.complete (f.localSpaceToDocSpace pos)]
  else
    match pyGet f.autoLayoutControllers (f.lastBreakIndexAt pos.x) with
    | none => none
    | some initLine =>
      let renderStart := f.localSpaceToDocSpace pos
      let renderEnd := renderStart + ⟨-1 * f.xPosRelToLineEnd pos.x, 0⟩
      let rest := f.autoLayoutControllers.drop (f.countBreaksLE pos.x)
      let looped := spanLoop f pos.y rest remainingX initLine
      let afterStart := f.localSpaceToDocSpace ⟨looped.2.1.x, pos.y⟩
      some (RenderEvent.beforeBreak renderStart renderEnd ::
            (looped.1 ++
             [RenderEvent.afterBreak afterStart (afterStart + ⟨looped.2.2, 0⟩)]))

/-- Embedding of a `GraphicObject` as far as rendering is concerned:
its position relative to its parent, its breakable width, the
enclosing flowable frame found by the ancestor walk of
`GraphicObject.frame` (if any), and the positions of its proper
ancestors (used to resolve document coordinates for objects outside
flowables). -/
structure GraphicObject where
  pos : Pt
  breakableWidth : ℚ
  frame : Option FlowableFrame
  ancestors : List Pt

/-- `GraphicObject.is_in_flowable` (src/brown/core/graphic_object.py,
lines 134-137). -/
def GraphicObject.isInFlowable (o : GraphicObject) : Bool :=
  o.frame.isSome

/-- The position of an object resolved through its ancestor chain into
absolute document coordinates (what the spec calls the mapped document
position of a non-flowable object). -/
def GraphicObject.ancestorResolvedPos (o : GraphicObject) : Pt :=
  o.ancestors.foldl (fun a b => a + b) o.pos

/-- Embedding of `GraphicObject.render`
(src/brown/core/graphic_object.py, lines 177-185): objects in a
flowable dispatch to `_render_flowable`; all other objects get a
single `_render_complete` call carrying `self.pos` — the local,
parent-relative position. -/
def GraphicObject.render (o : GraphicObject) : Option (List RenderEvent) :=
  match o.frame with
  | some f => f.renderFlowable o.pos o.breakableWidth
  | none => some [RenderEvent.complete o.pos]

/-- The unit classes of `brown.utils.units` (the module is absent from
the tree; the spec treats unit conversion as an external collaborator).
Only the identity of the class matters for the spanner length
contract. -/
inductive UnitKind where
  | graphicUnit
  | mm
  | inch
  deriving DecidableEq, Repr

/-- The document position of an object given the positions along its
chain (its own position followed by its ancestors' positions), for
objects outside flowable frames: the sum of the chain. -/
def docPosOfChain (chain : List Pt) : Pt :=
  chain.foldl (fun a b => a + b) 0

/-- Modelled from the spec: `GraphicObject.map_between_items` (called
by `Spanner.length` but absent from the tree) — the position of `dst`
relative to `src`, obtained by resolving both through their ancestor
chains into document space and subtracting. -/
def mapBetweenItems (src dst : List Pt) : Pt :=
  docPosOfChain dst - docPosOfChain src

/-- Embedding of a `Spanner` mixin instance
(src/brown/core/spanner.py): the owning object's position chain (its
`pos` followed by its ancestors' positions), the unit class of the
owner's x coordinate, the end position, and the end parent — either
the spanner itself (`end_parent == self`) or another object given by
its position chain. Values are physical lengths, so the
`Point.to_unit` conversion in `Spanner.length` leaves them
unchanged. -/
structure Spanner where
  ownerChain : List Pt
  ownerXKind : UnitKind
  endPos : Pt
  endParentIsSelf : Bool
  endParentChain : List Pt

/-- Embedding of the branch at src/brown/core/spanner.py lines 88-95:
when the end parent is the spanner itself the end position is used
directly; otherwise the end anchor is first mapped through the end
parent's chain into the owner's coordinate space. -/
def Spanner.relativeStop (sp : Spanner) : Pt :=
  if sp.endParentIsSelf then sp.endPos
  else mapBetweenItems sp.ownerChain sp.endParentChain + sp.endPos

/-- The squared length of the spanner: src/brown/core/spanner.py lines
97-98 computes `sqrt(relative_stop.x ** 2 + relative_stop.y ** 2)`;
this is the radicand. -/
def Spanner.lengthSqVal (sp : Spanner) : ℚ :=
  sp.relativeStop.x ^ 2 + sp.relativeStop.y ^ 2

/-- The unit class of the result of `Spanner.length`:
src/brown/core/spanner.py line 99 constructs it as
`type(self.pos.x)(distance)`. -/
def Spanner.lengthKind (sp : Spanner) : UnitKind :=
  sp.ownerXKind

/-- The owner's resolved document position. -/
def Spanner.ownerDocPos (sp : Spanner) : Pt :=
  docPosOfChain sp.ownerChain

/-- The end anchor's resolved document position: the end parent's
document position (the owner itself when `end_parent == self`) plus
the end position. -/
def Spanner.endAnchorDocPos (sp : Spanner) : Pt :=
  (if sp.endParentIsSelf then docPosOfChain sp.ownerChain
   else docPosOfChain sp.endParentChain) + sp.endPos

/-- The four render phases of the flowable render protocol. -/
inductive RenderPhase where
  | complete
  | beforeBreak
  | afterBreak
  | spanningContinuation
  deriving DecidableEq, Repr

/-- The phase a dispatched render call belongs to. -/
def RenderEvent.phase : RenderEvent → RenderPhase
  | RenderEvent.complete _ => RenderPhase.complete
  | RenderEvent.beforeBreak _ _ => RenderPhase.beforeBreak
  | RenderEvent.afterBreak _ _ => RenderPhase.afterBreak
  | RenderEvent.spanningContinuation _ _ => RenderPhase.spanningContinuation

/-- Which of the four render callbacks a concrete graphic type
overrides; a callback left at the `GraphicObject` base implementation
raises NotImplementedError when invoked
(src/brown/core/graphic_object.py, lines 227-297). -/
structure RenderImpl where
  complete : Bool
  beforeBreak : Bool
  afterBreak : Bool
  spanningContinuation : Bool
  deriving DecidableEq, Repr

/-- Whether a concrete type implements the callback for a phase. -/
def RenderImpl.implements (impl : RenderImpl) : RenderPhase → Bool
  | RenderPhase.complete => impl.complete
  | RenderPhase.beforeBreak => impl.beforeBreak
  | RenderPhase.afterBreak => impl.afterBreak
  | RenderPhase.spanningContinuation => impl.spanningContinuation

/-- Executing the dispatched render calls against a concrete type:
each call invokes its callback in order; reaching a phase whose
callback is the base-class stub raises NotImplementedError at exactly
that point (`Except.error` carries the offending phase). -/
def execEvents (impl : RenderImpl) : List RenderEvent → Except RenderPhase (List RenderEvent)
  | [] => Except.ok []
  | e :: rest =>
    if impl.implements e.phase then
      match execEvents impl rest with
      | Except.ok done => Except.ok (e :: done)
      | Except.error p => Except.error p
    else Except.error e.phase

/-- The callbacks `InvisibleObject` overrides
(src/brown/core/invisible_object.py): only `_render_complete`; the
three split callbacks are left at the base-class stub. -/
def invisibleObjectImpl : RenderImpl :=
  { complete := true
    beforeBreak := false
    afterBreak := false
    spanningContinuation := false }

/-- An axis-aligned rectangle with rational coordinates, standing in
for Qt's QRectF. -/
structure QRectF where
  x : ℚ
  y : ℚ
  w : ℚ
  h : ℚ
  deriving DecidableEq, Repr

/-- Embedding of `QClippingPath.calculate_bounding_rect`
(src/neoscore/interface/qt/q_clipping_path.py, lines 111-141): resolve
the clip start against the rect's left edge, resolve a `None` clip
width as `width - resolved_clip_start_x`, and pad all sides. -/
def calculate_bounding_rect (boundingRect : QRectF) (clipStartX : ℚ)
    (clipWidth : Option ℚ) (padding : ℚ) : QRectF :=
  let resolvedClipStartX := boundingRect.x + clipStartX
  let resolvedClipWidth :=
    match clipWidth with
    | some w => w
    | none => boundingRect.w - resolvedClipStartX
  { x := -padding
    y := boundingRect.y - padding
    w := resolvedClipWidth + padding * 2
    h := boundingRect.h + padding * 2 }

/-- Python `int()` applied to a rational: truncation toward zero. -/
def pyInt (q : ℚ) : ℤ :=
  if q < 0 then -(Int.floor (-q)) else Int.floor q

/-- Embedding of `RepeatingMusicTextLine._repetitions_needed`
(src/brown/core/repeating_music_text_line.py, lines 60-69):
`int((self.length / base_width).value)`. -/
def repetitions_needed (length baseWidth : ℚ) : ℤ :=
  pyInt (length / baseWidth)

/-- Python `list * int`: the list repeated, empty for a non-positive
count. Used at src/brown/core/repeating_music_text_line.py lines 49-50
to build the drawn character list. -/
def pyListMul {α : Type} (l : List α) (n : ℤ) : List α :=
  (List.replicate n.toNat l).flatten

/-- A concrete paper for witnesses: live width 100, effectively
unbounded live height. -/
def examplePaper : Paper :=
  { width := 210, marginLeft := 20, marginTop := 20
    liveWidth := 100, liveHeight := 10000, gap := 150 }

/-- A concrete frame 3.5 live-widths long, matching the many-new-lines
test scenario. -/
def exampleFrame : FlowableFrame :=
  { x := 0, y := 0, width := 350, height := 50, yPadding := 20, paper := examplePaper }

/-- A concrete paper with live width 20, used for the one-break
scenario. -/
def narrowPaper : Paper :=
  { width := 210, marginLeft := 20, marginTop := 20
    liveWidth := 20, liveHeight := 10000, gap := 150 }

/-- A concrete frame of length 29 on 20-wide lines: an object of
breakable width 10 at local x 19 crosses exactly one break. -/
def narrowFrame : FlowableFrame :=
  { x := 0, y := 0, width := 29, height := 50, yPadding := 20, paper := narrowPaper }

/-- A concrete object outside any flowable frame, with one ancestor at
(3, 4) and local position (1, 2): its ancestor-resolved document
position is (4, 6). -/
def strandedObject : GraphicObject :=
  { pos := ⟨1, 2⟩, breakableWidth := 0, frame := none, ancestors := [⟨3, 4⟩] }

/-- A concrete spanner whose end parent is itself. -/
def selfSpanner : Spanner :=
  { ownerChain := [⟨1, 2⟩], ownerXKind := UnitKind.mm, endPos := ⟨3, 4⟩
    endParentIsSelf := true, endParentChain := [] }

/-- A concrete spanner with a distinct end parent. -/
def otherSpanner : Spanner :=
  { ownerChain := [⟨1, 2⟩, ⟨5, 5⟩], ownerXKind := UnitKind.mm, endPos := ⟨3, 4⟩
    endParentIsSelf := false, endParentChain := [⟨2, 2⟩] }

/-- A concrete spanner whose start and end anchors resolve to the same
document point. -/
def zeroSpanner : Spanner :=
  { ownerChain := [⟨1, 2⟩], ownerXKind := UnitKind.graphicUnit, endPos := ⟨0, 0⟩
    endParentIsSelf := true, endParentChain := [] }

/-- A concrete paper matching the spec's page-origin example: width
210mm, inter-page gap 150mm. -/
def contractPaper : Paper :=
  { width := 210, marginLeft := 20, marginTop := 20
    liveWidth := 170, liveHeight := 257, gap := 150 }

theorem Pt.add_def (a b : Pt) : a + b = ⟨a.x + b.x, a.y + b.y⟩ := rfl

theorem Pt.sub_def (a b : Pt) : a - b = ⟨a.x - b.x, a.y - b.y⟩ := rfl

theorem Pt.ext_components {a b : Pt} (hx : a.x = b.x) (hy : a.y = b.y) : a = b := by
  cases a
  cases b
  simp_all

/-- C5: the local-space to document-space conversion is deterministic:
for a fixed frame state, two calls with identical (x, y) inputs and no
intervening mutation yield identical output — the mapping is a pure
function of the frame value and the input point, with no hidden
mutable state. -/
theorem local_to_doc_deterministic (f g : FlowableFrame) (p q : Pt)
    (hfg : f = g) (hpq : p = q) :
    f.localSpaceToDocSpace p = g.localSpaceToDocSpace q := by
  subst hfg
  subst hpq
  rfl

theorem local_to_doc_deterministic_witness :
    exampleFrame.localSpaceToDocSpace ⟨5, 6⟩ = exampleFrame.localSpaceToDocSpace ⟨5, 6⟩ :=
  local_to_doc_deterministic exampleFrame exampleFrame ⟨5, 6⟩ ⟨5, 6⟩ rfl rfl

/-- C7: pages are created lazily, in order, and indexed contiguously
from 0: `pageAt` returns an existing page untouched, creates every
missing page from the lowest absent index up to the requested one in
ascending order (a contiguous state stays contiguous), a fresh request
for index 2 creates pages 0, 1, 2 in order, and the page origin is a
pure function of index, paper width and gap, with page 2 exactly
2 × (210 + 150) = 720 mm from page 0 for the spec's concrete inputs. -/
theorem pages_lazy_and_origin :
    (∀ (pages : List ℕ) (i : ℕ), i < pages.length → pageAt pages i = (pages, i)) ∧
    (∀ (pages : List ℕ) (i : ℕ), pages.length ≤ i →
        (pageAt pages i).1 = pages ++ List.range' pages.length (i + 1 - pages.length) ∧
        List.Pairwise (· < ·) (List.range' pages.length (i + 1 - pages.length)) ∧
        (pages = List.range pages.length → (pageAt pages i).1 = List.range (i + 1))) ∧
    (pageAt [] 2).1 = [0, 1, 2] ∧
    (∀ pp : Paper, pp.width = 210 → pp.gap = 150 →
        pp.pageOriginX 2 - pp.pageOriginX 0 = 720) := by
  refine ⟨?_, ?_, by decide, ?_⟩
  · intro pages i h
    simp [pageAt, h]
  · intro pages i h
    have hnot : ¬ i < pages.length := Nat.not_lt.mpr h
    refine ⟨by simp [pageAt, hnot], ?_, ?_⟩
    · rw [List.range'_eq_map_range]
      exact (List.pairwise_lt_range _).map _ (fun a b hab => by omega)
    · intro hp
      have hsplit : i + 1 = pages.length + (i + 1 - pages.length) := by omega
      rw [pageAt]
      simp only [hnot, if_false]
      rw [hsplit, List.range_add, List.range'_eq_map_range]
      rw [hp]
      simp [List.length_range]
  · intro pp h1 h2
    simp only [Paper.pageOriginX, h1, h2]
    norm_num

theorem pages_lazy_and_origin_witness :
    pageAt [0] 0 = ([0], 0) ∧
    (pageAt [0] 2).1 = List.range 3 ∧
    contractPaper.pageOriginX 2 - contractPaper.pageOriginX 0 = 720 :=
  ⟨pages_lazy_and_origin.1 [0] 0 (by decide),
   by
     have h := (pages_lazy_and_origin.2.1 [0] 2 (by decide)).2.2 (by decide)
     simpa using h,
   pages_lazy_and_origin.2.2.2 contractPaper rfl rfl⟩

/-- C8: unimplemented render-phase callbacks fail fast exactly at the
phase that needs them: executing the dispatched calls succeeds when
every reached phase is implemented, and errors with exactly the first
unimplemented phase reached otherwise; `InvisibleObject` overrides
only the complete callback, and a render that never splits (a single
complete call) succeeds for it. -/
theorem render_callbacks_fail_fast :
    (∀ (impl : RenderImpl) (evs : List RenderEvent),
        (∀ e ∈ evs, impl.implements e.phase = true) →
        execEvents impl evs = Except.ok evs) ∧
    (∀ (impl : RenderImpl) (done : List RenderEvent) (e : RenderEvent)
        (rest : List RenderEvent),
        (∀ d ∈ done, impl.implements d.phase = true) →
        impl.implements e.phase = false →
        execEvents impl (done ++ e :: rest) = Except.error e.phase) ∧
    invisibleObjectImpl.complete = true ∧
    invisibleObjectImpl.beforeBreak = false ∧
    invisibleObjectImpl.afterBreak = false ∧
    invisibleObjectImpl.spanningContinuation = false ∧
    (∀ p : Pt, execEvents invisibleObjectImpl [RenderEvent.complete p] =
        Except.ok [RenderEvent.complete p]) := by
  refine ⟨?_, ?_, rfl, rfl, rfl, rfl, fun p => rfl⟩
  · intro impl evs h
    induction evs with
    | nil => rfl
    | cons e rest ih =>
      have he := h e (by simp)
      have hr := ih (fun d hd => h d (by simp [hd]))
      simp [execEvents, he, hr]
  · intro impl done e rest h he
    induction done with
    | nil => simp [execEvents, he]
    | cons d ds ih =>
      have hd := h d (by simp)
      have ihr := ih (fun d2 hd2 => h d2 (by simp [hd2]))
      simp [execEvents, hd, ihr]

theorem render_callbacks_fail_fast_witness :
    execEvents invisibleObjectImpl [RenderEvent.complete ⟨0, 0⟩] =
      Except.ok [RenderEvent.complete ⟨0, 0⟩] ∧
    execEvents invisibleObjectImpl
        [RenderEvent.complete ⟨0, 0⟩, RenderEvent.beforeBreak ⟨0, 0⟩ ⟨1, 0⟩] =
      Except.error RenderPhase.beforeBreak :=
  ⟨render_callbacks_fail_fast.2.2.2.2.2.2 ⟨0, 0⟩,
   by
     have h := render_callbacks_fail_fast.2.1 invisibleObjectImpl
       [RenderEvent.complete ⟨0, 0⟩] (RenderEvent.beforeBreak ⟨0, 0⟩ ⟨1, 0⟩) []
       (by intro d hd; simp at hd; subst hd; rfl) rfl
     simpa using h⟩

/-- C9 counterexample: the claim that a `None` clip width resolves to
the distance from the clip start to the right edge of the path's
bounding rect fails when the rect's left edge is nonzero: for the rect
(x=5, y=0, w=10, h=10) with clip start 0 and no padding, the code
resolves the width to 5, while the distance from the clip start to the
right edge is (5 + 10) - (5 + 0) = 10. -/
theorem clip_width_unbounded_counterexample :
    (calculate_bounding_rect ⟨5, 0, 10, 10⟩ 0 none 0).w = 5 ∧
    ((5 : ℚ) + 10) - (5 + 0) + 0 * 2 = 10 ∧
    (calculate_bounding_rect ⟨5, 0, 10, 10⟩ 0 none 0).w ≠
      ((5 : ℚ) + 10) - (5 + 0) + 0 * 2 := by
  refine ⟨by norm_num [calculate_bounding_rect], by norm_num,
    by norm_num [calculate_bounding_rect]⟩

/-- C9 amended: with `clip_width = None`, the resolved clip width is
the bounding rect's width minus the resolved clip start (the rect's
left edge plus `clip_start_x`), plus symmetric pen padding; this
equals the distance from the clip start to the right edge of the
bounding rect exactly when the rect's left edge sits at x = 0. -/
theorem clip_width_unbounded_resolved (br : QRectF) (cs p : ℚ) :
    (calculate_bounding_rect br cs none p).w = br.w - (br.x + cs) + p * 2 ∧
    (br.x = 0 →
      (calculate_bounding_rect br cs none p).w = ((br.x + br.w) - (br.x + cs)) + p * 2) := by
  constructor
  · rfl
  · intro h
    simp only [calculate_bounding_rect, h]
    ring

theorem clip_width_unbounded_resolved_witness :
    (calculate_bounding_rect ⟨0, 0, 10, 10⟩ 2 none 1).w = ((0 : ℚ) + 10) - (0 + 2) + 1 * 2 :=
  (clip_width_unbounded_resolved ⟨0, 0, 10, 10⟩ 2 1).2 rfl

/-- C10: the number of repetitions drawn by `RepeatingMusicTextLine`
equals floor(spanner length / width of one repetition) when the length
is nonnegative and the base width positive, so the total width of the
drawn repetitions never exceeds the spanner's length; when a single
repetition is wider than the spanner, zero repetitions are drawn and
the displayed character list is empty. -/
theorem repeating_text_repetitions (chars : List ℕ) (length baseWidth : ℚ)
    (hl : 0 ≤ length) (hb : 0 < baseWidth) :
    repetitions_needed length baseWidth = Int.floor (length / baseWidth) ∧
    (repetitions_needed length baseWidth : ℚ) * baseWidth ≤ length ∧
    (length < baseWidth → repetitions_needed length baseWidth = 0 ∧
        pyListMul chars (repetitions_needed length baseWidth) = []) := by
  have hq : 0 ≤ length / baseWidth := div_nonneg hl hb.le
  have h1 : repetitions_needed length baseWidth = Int.floor (length / baseWidth) := by
    unfold repetitions_needed pyInt
    rw [if_neg (not_lt.mpr hq)]
  refine ⟨h1, ?_, ?_⟩
  · rw [h1]
    calc (Int.floor (length / baseWidth) : ℚ) * baseWidth
        ≤ (length / baseWidth) * baseWidth :=
          mul_le_mul_of_nonneg_right (Int.floor_le _) hb.le
      _ = length := div_mul_cancel₀ _ hb.ne.symm
  · intro hlt
    have h0 : Int.floor (length / baseWidth) = 0 :=
      Int.floor_eq_zero_iff.mpr ⟨hq, (div_lt_one hb).mpr hlt⟩
    refine ⟨h1.trans h0, ?_⟩
    rw [h1, h0]
    rfl

theorem repeating_text_repetitions_witness :
    repetitions_needed 5 10 = 0 ∧ pyListMul [1, 2] (repetitions_needed 5 10) = [] :=
  (repeating_text_repetitions [1, 2] 5 10 (by norm_num) (by norm_num)).2.2 (by norm_num)

/-- C2 (code evaluation at the failing input): a `GraphicObject`
outside any flowable frame, at local position (1, 2) under a parent at
(3, 4), renders once through the complete callback — but
`GraphicObject.render` passes `self.pos`, the parent-relative
position (1, 2), even though `_render_complete` documents its argument
as a document-space position and the ancestor-resolved document
position is (4, 6). -/
theorem render_outside_flowable_eval :
    strandedObject.isInFlowable = false ∧
    strandedObject.render = some [RenderEvent.complete ⟨1, 2⟩] ∧
    strandedObject.ancestorResolvedPos = ⟨4, 6⟩ ∧
    (⟨1, 2⟩ : Pt) ≠ (⟨4, 6⟩ : Pt) := by
  refine ⟨rfl, rfl, ?_, ?_⟩
  · simp only [GraphicObject.ancestorResolvedPos, strandedObject, List.foldl, Pt.add_def]
    norm_num
  · simp only [ne_eq, Pt.mk.injEq]
    norm_num

/-- C6: the spanner's length is the Euclidean (Pythagorean) distance
from the owner's resolved position to the resolved end anchor: when
the end parent is the spanner itself the end position is used directly
with no ancestor-chain mapping, otherwise the end anchor is first
mapped through the end parent's chain into the owner's space; the
radicand of the length equals the squared document-space distance, so
coinciding anchors give a length of exactly zero; and the result's
unit class is the class of the owner's x coordinate. -/
theorem spanner_length_spec (sp : Spanner) :
    (sp.endParentIsSelf = true → sp.relativeStop = sp.endPos) ∧
    (sp.endParentIsSelf = false →
        sp.relativeStop = mapBetweenItems sp.ownerChain sp.endParentChain + sp.endPos) ∧
    sp.relativeStop = sp.endAnchorDocPos - sp.ownerDocPos ∧
    sp.lengthSqVal =
      (sp.endAnchorDocPos.x - sp.ownerDocPos.x) ^ 2 +
        (sp.endAnchorDocPos.y - sp.ownerDocPos.y) ^ 2 ∧
    (sp.endAnchorDocPos = sp.ownerDocPos → Real.sqrt (sp.lengthSqVal : ℝ) = 0) ∧
    sp.lengthKind = sp.ownerXKind := by
  have h3 : sp.relativeStop = sp.endAnchorDocPos - sp.ownerDocPos := by
    unfold Spanner.relativeStop Spanner.endAnchorDocPos Spanner.ownerDocPos mapBetweenItems
    cases h : sp.endParentIsSelf
    · simp only [if_false, Bool.false_eq_true]
      apply Pt.ext_components <;> simp [Pt.add_def, Pt.sub_def] <;> ring
    · simp only [if_true]
      apply Pt.ext_components <;> simp [Pt.add_def, Pt.sub_def]
  have h4 : sp.lengthSqVal =
      (sp.endAnchorDocPos.x - sp.ownerDocPos.x) ^ 2 +
        (sp.endAnchorDocPos.y - sp.ownerDocPos.y) ^ 2 := by
    unfold Spanner.lengthSqVal
    rw [h3]
    simp [Pt.sub_def]
  refine ⟨?_, ?_, h3, h4, ?_, rfl⟩
  · intro h
    unfold Spanner.relativeStop
    rw [h]
    rfl
  · intro h
    unfold Spanner.relativeStop
    rw [h]
    simp
  · intro h
    have hz : sp.lengthSqVal = 0 := by
      rw [h4, h]
      ring
    rw [hz]
    push_cast
    exact Real.sqrt_zero

theorem spanner_length_spec_witness :
    selfSpanner.relativeStop = (⟨3, 4⟩ : Pt) ∧
    otherSpanner.relativeStop =
      mapBetweenItems otherSpanner.ownerChain otherSpanner.endParentChain + (⟨3, 4⟩ : Pt) ∧
    Real.sqrt (zeroSpanner.lengthSqVal : ℝ) = 0 :=
  ⟨(spanner_length_spec selfSpanner).1 rfl,
   (spanner_length_spec otherSpanner).2.1 rfl,
   (spanner_length_spec zeroSpanner).2.2.2.2.1 (by
     simp only [zeroSpanner, Spanner.endAnchorDocPos, Spanner.ownerDocPos, docPosOfChain,
       List.foldl, if_true, Pt.add_def]
     norm_num)⟩

theorem autoLayoutControllers_length (f : FlowableFrame) :
    f.autoLayoutControllers.length = f.controllerCount := by
  simp [FlowableFrame.autoLayoutControllers]

theorem autoLayoutControllers_getElem? (f : FlowableFrame) (i : ℕ)
    (hi : i < f.controllerCount) :
    f.autoLayoutControllers[i]? = some (f.mkController i) := by
  simp [FlowableFrame.autoLayoutControllers, List.getElem?_map, List.getElem?_range, hi]

theorem countP_range_le (n : ℕ) (F : ℤ) :
    (List.range n).countP (fun (k : ℕ) => decide ((k : ℤ) ≤ F)) = min n (F + 1).toNat := by
  induction n with
  | zero => simp
  | succ m ih =>
    rw [List.range_succ, List.countP_append, ih]
    by_cases h : (m : ℤ) ≤ F
    · have h1 : List.countP (fun (k : ℕ) => decide ((k : ℤ) ≤ F)) [m] = 1 := by
        simp [List.countP_cons, h]
      rw [h1]
      omega
    · have h1 : List.countP (fun (k : ℕ) => decide ((k : ℤ) ≤ F)) [m] = 0 := by
        simp [List.countP_cons, h]
      rw [h1]
      omega

theorem trigger_le_iff (f : FlowableFrame) (hW : 0 < f.paper.liveWidth) (x : ℚ) (k : ℕ) :
    f.trigger k ≤ x ↔
      (k : ℤ) ≤ Int.floor ((x - f.firstLineWidth) / f.paper.liveWidth) := by
  rw [Int.le_floor]
  unfold FlowableFrame.trigger
  rw [le_div_iff₀ hW]
  push_cast
  constructor <;> intro h <;> linarith

theorem countBreaksLE_eq (f : FlowableFrame) (hW : 0 < f.paper.liveWidth) (x : ℚ) :
    f.countBreaksLE x =
      min f.controllerCount
        (Int.floor ((x - f.firstLineWidth) / f.paper.liveWidth) + 1).toNat := by
  unfold FlowableFrame.countBreaksLE FlowableFrame.autoLayoutControllers
  rw [List.countP_map]
  have hcong : ((fun c : AutoLayoutController => decide (c.x ≤ x)) ∘ f.mkController) =
      fun (k : ℕ) =>
        decide ((k : ℤ) ≤ Int.floor ((x - f.firstLineWidth) / f.paper.liveWidth)) := by
    funext k
    simp only [Function.comp_apply, FlowableFrame.mkController]
    rw [decide_eq_decide]
    exact trigger_le_iff f hW x k
  rw [hcong]
  exact countP_range_le _ _

theorem countBreaksLE_le_count (f : FlowableFrame) (hW : 0 < f.paper.liveWidth) (x : ℚ) :
    f.countBreaksLE x ≤ f.controllerCount := by
  rw [countBreaksLE_eq f hW x]
  omega

theorem trigger_le_of_lt_countBreaks (f : FlowableFrame) (hW : 0 < f.paper.liveWidth)
    (x : ℚ) (k : ℕ) (hk : k < f.countBreaksLE x) : f.trigger k ≤ x := by
  rw [countBreaksLE_eq f hW x] at hk
  refine (trigger_le_iff f hW x k).mpr ?_
  omega

theorem lt_trigger_of_countBreaks_le (f : FlowableFrame) (hW : 0 < f.paper.liveWidth)
    (x : ℚ) (k : ℕ) (h1 : f.countBreaksLE x ≤ k) (h2 : k < f.controllerCount) :
    x < f.trigger k := by
  rw [countBreaksLE_eq f hW x] at h1
  have h3 : ¬ ((k : ℤ) ≤ Int.floor ((x - f.firstLineWidth) / f.paper.liveWidth)) := by
    omega
  exact not_le.mp fun hle => h3 ((trigger_le_iff f hW x k).mp hle)

theorem width_le_trigger_count (f : FlowableFrame) (hW : 0 < f.paper.liveWidth) :
    f.width ≤ f.trigger f.controllerCount := by
  unfold FlowableFrame.trigger FlowableFrame.controllerCount
  set r := (f.width - f.firstLineWidth) / f.paper.liveWidth with hr
  have h1 : r ≤ ((Int.ceil r).toNat : ℚ) := by
    refine (Int.le_ceil r).trans ?_
    exact_mod_cast Int.self_le_toNat _
  rw [hr, div_le_iff₀ hW] at h1
  linarith

theorem trigger_lt_width (f : FlowableFrame) (hW : 0 < f.paper.liveWidth) (k : ℕ)
    (hk : k < f.controllerCount) : f.trigger k < f.width := by
  unfold FlowableFrame.controllerCount at hk
  have h1 : (k : ℤ) < Int.ceil ((f.width - f.firstLineWidth) / f.paper.liveWidth) := by
    omega
  have h2 : (k : ℚ) < (f.width - f.firstLineWidth) / f.paper.liveWidth := by
    exact_mod_cast Int.lt_ceil.mp h1
  rw [lt_div_iff₀ hW] at h2
  unfold FlowableFrame.trigger
  linarith

theorem trigger_succ (f : FlowableFrame) (k : ℕ) :
    f.trigger (k + 1) = f.trigger k + f.paper.liveWidth := by
  unfold FlowableFrame.trigger
  push_cast
  ring

theorem lineStartCtrl_eq_none (f : FlowableFrame) (x : ℚ) (hc : f.countBreaksLE x = 0) :
    f.lineStartCtrl x = none := by
  simp [FlowableFrame.lineStartCtrl, hc]

theorem lineStartCtrl_eq_some (f : FlowableFrame) (x : ℚ) (hW : 0 < f.paper.liveWidth)
    (hc : f.countBreaksLE x ≠ 0) :
    f.lineStartCtrl x = some (f.mkController (f.countBreaksLE x - 1)) := by
  have hle := countBreaksLE_le_count f hW x
  have hidx : f.countBreaksLE x - 1 < f.controllerCount := by omega
  simp [FlowableFrame.lineStartCtrl, hc, autoLayoutControllers_getElem? f _ hidx]

theorem lineStartX_eq_zero (f : FlowableFrame) (x : ℚ) (hc : f.countBreaksLE x = 0) :
    f.lineStartX x = 0 := by
  unfold FlowableFrame.lineStartX
  rw [lineStartCtrl_eq_none f x hc]

theorem lineLength_eq_first (f : FlowableFrame) (x : ℚ) (hc : f.countBreaksLE x = 0) :
    f.lineLength x = f.firstLineWidth := by
  unfold FlowableFrame.lineLength
  rw [lineStartCtrl_eq_none f x hc]

theorem lineStartX_eq_trigger (f : FlowableFrame) (x : ℚ) (hW : 0 < f.paper.liveWidth)
    (hc : f.countBreaksLE x ≠ 0) :
    f.lineStartX x = f.trigger (f.countBreaksLE x - 1) := by
  unfold FlowableFrame.lineStartX
  rw [lineStartCtrl_eq_some f x hW hc]
  simp [FlowableFrame.mkController]

theorem lineLength_eq_min (f : FlowableFrame) (x : ℚ) (hW : 0 < f.paper.liveWidth)
    (hc : f.countBreaksLE x ≠ 0) :
    f.lineLength x =
      min f.paper.liveWidth (f.width - f.trigger (f.countBreaksLE x - 1)) := by
  unfold FlowableFrame.lineLength
  rw [lineStartCtrl_eq_some f x hW hc]
  simp [FlowableFrame.mkController]

theorem xPosRelToLineEnd_neg (f : FlowableFrame) (x : ℚ) (hW : 0 < f.paper.liveWidth)
    (hx : x < f.width) : f.xPosRelToLineEnd x < 0 := by
  unfold FlowableFrame.xPosRelToLineEnd
  by_cases hc : f.countBreaksLE x = 0
  · rw [lineStartX_eq_zero f x hc, lineLength_eq_first f x hc]
    by_cases hn : f.controllerCount = 0
    · have h := width_le_trigger_count f hW
      rw [hn] at h
      unfold FlowableFrame.trigger at h
      push_cast at h
      linarith
    · have h0 : 0 < f.controllerCount := Nat.pos_of_ne_zero hn
      have h := lt_trigger_of_countBreaks_le f hW x 0 (by omega) h0
      unfold FlowableFrame.trigger at h
      push_cast at h
      linarith
  · have hc1 : 1 ≤ f.countBreaksLE x := Nat.one_le_iff_ne_zero.mpr hc
    have hcle := countBreaksLE_le_count f hW x
    rw [lineStartX_eq_trigger f x hW hc, lineLength_eq_min f x hW hc]
    have htle : f.trigger (f.countBreaksLE x - 1) ≤ x :=
      trigger_le_of_lt_countBreaks f hW x _ (by omega)
    have hsucc : f.trigger (f.countBreaksLE x - 1) + f.paper.liveWidth =
        f.trigger (f.countBreaksLE x) := by
      rw [← trigger_succ]
      congr 1
      omega
    have hlt2 : x < f.trigger (f.countBreaksLE x - 1) + f.paper.liveWidth := by
      by_cases hceq : f.countBreaksLE x = f.controllerCount
      · have h := width_le_trigger_count f hW
        rw [hsucc, hceq]
        linarith
      · have hlt : f.countBreaksLE x < f.controllerCount := lt_of_le_of_ne hcle hceq
        have h := lt_trigger_of_countBreaks_le f hW x (f.countBreaksLE x) le_rfl hlt
        rw [hsucc]
        exact h
    rcases le_or_lt f.paper.liveWidth (f.width - f.trigger (f.countBreaksLE x - 1)) with h | h
    · rw [min_eq_left h]
      linarith
    · rw [min_eq_right h.le]
      linarith

/-- C3 (no-split shortcut): an object with breakable width 0 placed at
any local x inside a flowable frame renders only through the complete
callback, at the mapped document position — the before-break,
after-break and spanning-continuation callbacks are never invoked,
because the remaining width 0 + (x − line end) is strictly negative
whenever x lies inside the frame's span. -/
theorem render_of_frame (o : GraphicObject) (f : FlowableFrame) (hf : o.frame = some f) :
    o.render = f.renderFlowable o.pos o.breakableWidth := by
  unfold GraphicObject.render
  rw [hf]

theorem no_split_shortcut (f : FlowableFrame) (o : GraphicObject) (hf : o.frame = some f)
    (hbw : o.breakableWidth = 0) (hW : 0 < f.paper.liveWidth) (hx : o.pos.x < f.width) :
    o.render = some [RenderEvent.complete (f.localSpaceToDocSpace o.pos)] := by
  rw [render_of_frame o f hf]
  have h := xPosRelToLineEnd_neg f o.pos.x hW hx
  rw [FlowableFrame.renderFlowable, hbw]
  simp only [zero_add]
  rw [if_pos h]

theorem no_split_shortcut_witness :
    GraphicObject.render
        { pos := ⟨7, 3⟩, breakableWidth := 0, frame := some narrowFrame, ancestors := [] } =
      some [RenderEvent.complete (narrowFrame.localSpaceToDocSpace ⟨7, 3⟩)] :=
  no_split_shortcut narrowFrame
    { pos := ⟨7, 3⟩, breakableWidth := 0, frame := some narrowFrame, ancestors := [] }
    rfl rfl (by norm_num [narrowFrame, narrowPaper]) (by norm_num [narrowFrame, narrowPaper])

/-- C4 (round trip across exactly one break): an object at local
x = live width − 1 with breakable width 10, on a frame starting at
x offset 0 whose live width W exceeds 10 and whose length reaches at
least W + 9, dispatches exactly one before-break call and one
after-break call and no spanning continuation; the before-break slice
stops exactly at the current line's end boundary in document space,
and the after-break slice starts exactly at the next line's origin. -/
theorem round_trip_one_break (f : FlowableFrame) (y : ℚ) (hfx : f.x = 0)
    (hW10 : 10 < f.paper.liveWidth) (hL : f.paper.liveWidth + 9 ≤ f.width) :
    f.renderFlowable ⟨f.paper.liveWidth - 1, y⟩ 10 =
      some [RenderEvent.beforeBreak
              (f.localSpaceToDocSpace ⟨f.paper.liveWidth - 1, y⟩)
              (f.localSpaceToDocSpace ⟨f.paper.liveWidth - 1, y⟩ + ⟨1, 0⟩),
            RenderEvent.afterBreak
              (f.localSpaceToDocSpace ⟨f.paper.liveWidth, y⟩)
              (f.localSpaceToDocSpace ⟨f.paper.liveWidth, y⟩ + ⟨9, 0⟩)] ∧
    (f.localSpaceToDocSpace ⟨f.paper.liveWidth - 1, y⟩ + ⟨1, 0⟩).x =
      f.paper.pageOriginX 0 + f.x + f.firstLineWidth ∧
    (f.localSpaceToDocSpace ⟨f.paper.liveWidth, y⟩).x =
      f.paper.pageOriginX (f.pagesBefore 1) := by
  have hW : 0 < f.paper.liveWidth := by linarith
  have hp0 : f.firstLineWidth = f.paper.liveWidth := by
    unfold FlowableFrame.firstLineWidth
    rw [hfx, sub_zero]
  have hn : 0 < f.controllerCount := by
    unfold FlowableFrame.controllerCount
    have hr : (0 : ℚ) < (f.width - f.firstLineWidth) / f.paper.liveWidth :=
      div_pos (by rw [hp0]; linarith) hW
    have h2 := Int.ceil_pos.mpr hr
    omega
  have hF1 : Int.floor ((f.paper.liveWidth - 1 - f.firstLineWidth) / f.paper.liveWidth) =
      -1 := by
    rw [hp0]
    have hnum : f.paper.liveWidth - 1 - f.paper.liveWidth = -1 := by ring
    rw [hnum, Int.floor_eq_iff]
    constructor
    · rw [le_div_iff₀ hW]
      push_cast
      linarith
    · have hlt := div_neg_of_neg_of_pos (show (-1 : ℚ) < 0 by norm_num) hW
      push_cast
      linarith
  have hc0 : f.countBreaksLE (f.paper.liveWidth - 1) = 0 := by
    rw [countBreaksLE_eq f hW, hF1]
    simp
  have hF2 : Int.floor ((f.paper.liveWidth - f.firstLineWidth) / f.paper.liveWidth) = 0 := by
    rw [hp0, sub_self, zero_div, Int.floor_zero]
  have hc1 : f.countBreaksLE f.paper.liveWidth = 1 := by
    rw [countBreaksLE_eq f hW, hF2]
    omega
  have htrig0 : f.trigger 0 = f.paper.liveWidth := by
    unfold FlowableFrame.trigger
    rw [hp0]
    push_cast
    ring
  have hend : f.xPosRelToLineEnd (f.paper.liveWidth - 1) = -1 := by
    unfold FlowableFrame.xPosRelToLineEnd
    rw [lineStartX_eq_zero f _ hc0, lineLength_eq_first f _ hc0, hp0]
    ring
  have hlast : f.lastBreakIndexAt (f.paper.liveWidth - 1) = -1 := by
    unfold FlowableFrame.lastBreakIndexAt
    rw [hc0]
    norm_num
  have hpy : pyGet f.autoLayoutControllers (-1 : ℤ) =
      some (f.mkController (f.controllerCount - 1)) := by
    unfold pyGet
    rw [if_neg (by norm_num)]
    have h1 : ((-(-1 : ℤ)).toNat) = 1 := by norm_num
    rw [h1, autoLayoutControllers_length]
    rw [if_pos (by omega)]
    exact autoLayoutControllers_getElem? f _ (by omega)
  have hlen0 : (9 : ℚ) ≤ (f.mkController 0).length := by
    simp only [FlowableFrame.mkController]
    rw [htrig0]
    exact le_min (by linarith) (by linarith)
  have hspan : ∀ (rest : List AutoLayoutController) (init : AutoLayoutController),
      spanLoop f y (f.mkController 0 :: rest) 9 init = ([], f.mkController 0, 9) := by
    intro rest init
    unfold spanLoop
    rw [if_neg (not_lt.mpr hlen0)]
  have hcons : f.autoLayoutControllers =
      f.mkController 0 ::
        (List.range (f.controllerCount - 1)).map (fun k => f.mkController (k + 1)) := by
    unfold FlowableFrame.autoLayoutControllers
    have hsplit : f.controllerCount = (f.controllerCount - 1) + 1 := by omega
    conv_lhs => rw [hsplit]
    rw [List.range_succ_eq_map]
    simp [List.map_map, Function.comp_def]
  have hmk0x : (f.mkController 0).x = f.paper.liveWidth := by
    simp only [FlowableFrame.mkController]
    exact htrig0
  have hpb0 : f.pagesBefore 0 = 0 := by
    simp [FlowableFrame.pagesBefore]
  refine ⟨?_, ?_, ?_⟩
  · rw [FlowableFrame.renderFlowable]
    simp only
    rw [hend]
    norm_num
    rw [hlast, hpy]
    simp only
    rw [hc0, List.drop_zero, hcons]
    rw [hspan]
    simp only [hmk0x]
    norm_num
  · unfold FlowableFrame.localSpaceToDocSpace
    simp only [hc0, hpb0, if_pos rfl, lineStartX_eq_zero f _ hc0, Pt.add_def]
    rw [hp0]
    simp only [if_true, eq_self_iff_true]
    ring
  · unfold FlowableFrame.localSpaceToDocSpace
    simp only [hc1]
    rw [lineStartX_eq_trigger f _ hW (by omega)]
    simp only [hc1, htrig0]
    norm_num

theorem round_trip_one_break_witness :
    narrowFrame.renderFlowable ⟨narrowFrame.paper.liveWidth - 1, 0⟩ 10 =
      some [RenderEvent.beforeBreak
              (narrowFrame.localSpaceToDocSpace ⟨narrowFrame.paper.liveWidth - 1, 0⟩)
              (narrowFrame.localSpaceToDocSpace ⟨narrowFrame.paper.liveWidth - 1, 0⟩ + ⟨1, 0⟩),
            RenderEvent.afterBreak
              (narrowFrame.localSpaceToDocSpace ⟨narrowFrame.paper.liveWidth, 0⟩)
              (narrowFrame.localSpaceToDocSpace ⟨narrowFrame.paper.liveWidth, 0⟩ + ⟨9, 0⟩)] :=
  (round_trip_one_break narrowFrame 0 rfl
    (by norm_num [narrowFrame, narrowPaper])
    (by norm_num [narrowFrame, narrowPaper])).1

theorem sliceSegments_append (L t : ℚ) (ts : List ℚ) :
    sliceSegments L (ts ++ [t]) = sliceSegments t ts ++ [L - t] := by
  unfold sliceSegments
  rw [show (0 : ℚ) :: (ts ++ [t]) = (0 :: ts) ++ [t] from rfl]
  rw [List.zipWith_append _ _ _ _ _ (by simp)]
  rfl

theorem sliceSegments_sum (L : ℚ) (ts : List ℚ) : (sliceSegments L ts).sum = L := by
  induction ts using List.reverseRecOn generalizing L with
  | nil => simp [sliceSegments]
  | append_singleton ts t ih =>
    rw [sliceSegments_append, List.sum_append, ih, List.sum_singleton]
    ring

theorem controllers_map_x (f : FlowableFrame) :
    f.autoLayoutControllers.map (fun c => c.x) =
      (List.range f.controllerCount).map f.trigger := by
  unfold FlowableFrame.autoLayoutControllers
  rw [List.map_map]
  simp [Function.comp_def, FlowableFrame.mkController]

theorem segs_le_of_triggers (f : FlowableFrame) (hx0 : 0 ≤ f.x) :
    ∀ (m : ℕ) (B : ℚ), B ≤ f.trigger m →
      ∀ s ∈ sliceSegments B ((List.range m).map f.trigger), s ≤ f.paper.liveWidth := by
  intro m
  induction m with
  | zero =>
    intro B hB s hs
    simp only [List.range_zero, List.map_nil, sliceSegments, List.nil_append,
      List.zipWith_cons_cons, List.zipWith_nil_right, List.mem_singleton] at hs
    have ht0 : f.trigger 0 = f.paper.liveWidth - f.x := by
      unfold FlowableFrame.trigger FlowableFrame.firstLineWidth
      push_cast
      ring
    subst hs
    rw [ht0] at hB
    linarith
  | succ k ih =>
    intro B hB s hs
    rw [List.range_succ, List.map_append, List.map_singleton, sliceSegments_append,
      List.mem_append] at hs
    rcases hs with hs | hs
    · exact ih (f.trigger k) le_rfl s hs
    · rw [List.mem_singleton] at hs
      subst hs
      have h2 := trigger_succ f k
      linarith

/-- C1 (break tiling): the generated break controllers have strictly
increasing x triggers, slicing the interval [0, L) at those triggers
produces segments each at most the live width (including the first
segment, shortened by the frame's nonnegative starting offset), the
segment lengths sum exactly to L, every trigger lies strictly below L
(no trailing controller for content ending exactly at a boundary), and
a zero-length frame yields no controllers. -/
theorem break_tiling_exact (f : FlowableFrame) (hL : 0 ≤ f.width)
    (hW : 0 < f.paper.liveWidth) (hx0 : 0 ≤ f.x) (hxW : f.x ≤ f.paper.liveWidth) :
    List.Pairwise (· < ·) (f.autoLayoutControllers.map (fun c => c.x)) ∧
    (∀ s ∈ sliceSegments f.width (f.autoLayoutControllers.map (fun c => c.x)),
        s ≤ f.paper.liveWidth) ∧
    (sliceSegments f.width (f.autoLayoutControllers.map (fun c => c.x))).sum = f.width ∧
    (∀ c ∈ f.autoLayoutControllers, c.x < f.width) ∧
    (f.width = 0 → f.autoLayoutControllers = []) := by
  refine ⟨?_, ?_, sliceSegments_sum _ _, ?_, ?_⟩
  · rw [controllers_map_x]
    refine (List.pairwise_lt_range _).map _ ?_
    intro a b hab
    unfold FlowableFrame.trigger
    have hcast : (a : ℚ) < (b : ℚ) := by exact_mod_cast hab
    have hmul := mul_lt_mul_of_pos_right hcast hW
    linarith
  · rw [controllers_map_x]
    exact segs_le_of_triggers f hx0 f.controllerCount f.width
      (width_le_trigger_count f hW)
  · intro c hc
    unfold FlowableFrame.autoLayoutControllers at hc
    rw [List.mem_map] at hc
    obtain ⟨k, hk, rfl⟩ := hc
    rw [List.mem_range] at hk
    simp only [FlowableFrame.mkController]
    exact trigger_lt_width f hW k hk
  · intro h0
    have hn : f.controllerCount = 0 := by
      unfold FlowableFrame.controllerCount
      have hnum : f.width - f.firstLineWidth ≤ 0 := by
        unfold FlowableFrame.firstLineWidth
        rw [h0]
        linarith
      have hx : (f.width - f.firstLineWidth) / f.paper.liveWidth ≤ 0 :=
        div_nonpos_iff.mpr (Or.inr ⟨hnum, hW.le⟩)
      have hceil : Int.ceil ((f.width - f.firstLineWidth) / f.paper.liveWidth) ≤ 0 :=
        Int.ceil_le.mpr (by exact_mod_cast hx)
      omega
    unfold FlowableFrame.autoLayoutControllers
    rw [hn]
    rfl

theorem break_tiling_exact_witness :
    (sliceSegments exampleFrame.width
        (exampleFrame.autoLayoutControllers.map (fun c => c.x))).sum = exampleFrame.width ∧
    List.Pairwise (· < ·) (exampleFrame.autoLayoutControllers.map (fun c => c.x)) ∧
    FlowableFrame.autoLayoutControllers
      { x := 10, y := 11, width := 0, height := 50, yPadding := 20, paper := examplePaper } =
      [] :=
  ⟨(break_tiling_exact exampleFrame (by norm_num [exampleFrame])
      (by norm_num [exampleFrame, examplePaper]) (by norm_num [exampleFrame])
      (by norm_num [exampleFrame, examplePaper])).2.2.1,
   (break_tiling_exact exampleFrame (by norm_num [exampleFrame])
      (by norm_num [exampleFrame, examplePaper]) (by norm_num [exampleFrame])
      (by norm_num [exampleFrame, examplePaper])).1,
   (break_tiling_exact
      { x := 10, y := 11, width := 0, height := 50, yPadding := 20, paper := examplePaper }
      (by norm_num) (by norm_num [examplePaper]) (by norm_num)
      (by norm_num [examplePaper])).2.2.2.2 rfl⟩
